import Mathlib

/-!
Verification development for the Adox employee portal ledger subsystem
(source: src/app.py).  The SQLite relations transactions and backups are
embedded as Lean lists kept in rowid (insertion) order; each route handler
that touches the store becomes a Lean function on an explicit DB state.

Python's sqlite3 module opens an implicit transaction at the first DML
statement and makes it durable only at commit(); an unhandled exception
aborts the request before commit and the pending transaction is discarded
when the per-request connection is closed by the teardown handler.  The
model therefore runs each handler's statement plan against a pending copy
of the state and publishes it to the durable state only at an explicit
commit statement, which lets the atomicity claims quantify over the point
at which a run fails.
-/

namespace Adox

/-- Truncation toward zero, the behaviour of Python int() on a float value;
app.py stores the kz form field as int(float(kz)). -/
def ratTrunc (q : ℚ) : ℤ := q.num.tdiv (q.den : ℤ)

/-- Strip leading and trailing whitespace from a character list. -/
def trimChars (cs : List Char) : List Char :=
  ((cs.dropWhile Char.isWhitespace).reverse.dropWhile Char.isWhitespace).reverse

/-- Python str.strip(): remove surrounding whitespace. -/
def pyStrip (s : String) : String := String.mk (trimChars s.data)

/-- Bytewise (BINARY-collation) less-or-equal on TEXT values, written as
structural recursion over the character lists so that concrete instances
evaluate. -/
def lexLe : List Char → List Char → Bool
  | [], _ => true
  | _ :: _, [] => false
  | a :: as, b :: bs => if a < b then true else if b < a then false else lexLe as bs

/-- Bytewise (BINARY-collation) strictly-less on TEXT values. -/
def lexLt : List Char → List Char → Bool
  | [], [] => false
  | [], _ :: _ => true
  | _ :: _, [] => false
  | a :: as, b :: bs => if a < b then true else if b < a then false else lexLt as bs

/-- SQLite TEXT comparison, strict. -/
def strLt (s t : String) : Prop := lexLt s.data t.data = true

/-- SQLite TEXT comparison, non-strict. -/
def strLe (s t : String) : Prop := lexLe s.data t.data = true

instance (s t : String) : Decidable (strLt s t) := by unfold strLt; infer_instance

instance (s t : String) : Decidable (strLe s t) := by unfold strLe; infer_instance

/-- Consume an optional leading sign, returning whether it was a minus. -/
def parseSign : List Char → Bool × List Char
  | '-' :: rest => (true, rest)
  | '+' :: rest => (false, rest)
  | cs => (false, cs)

/-- Numeric value of a run of decimal digits. -/
def digitsVal (cs : List Char) : Nat :=
  cs.foldl (fun n c => n * 10 + (c.toNat - 48)) 0

/-- Models the Python float() builtin on the decimal literals the portal's
forms produce: optional surrounding whitespace, an optional sign, digits
with an optional fractional part, and an optional decimal exponent.  The
CPython forms that cannot reach the handlers in question (inf, nan,
underscore separators) are omitted, and the value is kept as an exact
rational. -/
def pyFloat? (s : String) : Option ℚ :=
  let sr := parseSign (trimChars s.data)
  let ip := sr.2.takeWhile Char.isDigit
  let cs2 := sr.2.dropWhile Char.isDigit
  let fr : List Char × List Char :=
    match cs2 with
    | '.' :: rest => (rest.takeWhile Char.isDigit, rest.dropWhile Char.isDigit)
    | _ => ([], cs2)
  if ip.isEmpty && fr.1.isEmpty then none
  else
    let mag : ℤ → ℚ := fun e =>
      let e' : ℤ := e - (fr.1.length : ℤ)
      let m : ℕ := digitsVal (ip ++ fr.1)
      let n : ℤ := if sr.1 then -(m : ℤ) else (m : ℤ)
      if 0 ≤ e' then mkRat (n * (Nat.pow 10 e'.toNat : ℕ)) 1
      else mkRat n (Nat.pow 10 (-e').toNat)
    match fr.2 with
    | [] => some (mag 0)
    | c :: rest =>
      if c = 'e' || c = 'E' then
        let er := parseSign rest
        let ed := er.2.takeWhile Char.isDigit
        if ed.isEmpty || !(er.2.dropWhile Char.isDigit).isEmpty then none
        else some (mag (if er.1 then -(digitsVal ed : ℤ) else (digitsVal ed : ℤ)))
      else none

/-- A row of the transactions relation of app.py.  The opaque random id
produced by secrets.token_hex and the utcnow creation timestamp are both
modelled by values drawn from the DB counter: all that the code relies on
is that they are fresh. -/
structure Tx where
  id : Nat
  user_id : Nat
  date : String
  time : String
  client : String
  origin : String
  currency : String
  amount : ℚ
  recipient : String
  bank : String
  kz : ℤ
  created_at : Nat
deriving Repr, DecidableEq

/-- One element of a backup payload: the columns selected by save_backup
and do_reset_totals (everything except id, user_id and created_at). -/
structure Item where
  date : String
  time : String
  client : String
  origin : String
  currency : String
  amount : ℚ
  recipient : String
  bank : String
  kz : ℤ
deriving Repr, DecidableEq

/-- Project a transaction row to the payload columns, as the SELECT in
save_backup / do_reset_totals does. -/
def Tx.strip (t : Tx) : Item :=
  ⟨t.date, t.time, t.client, t.origin, t.currency, t.amount, t.recipient, t.bank, t.kz⟩

/-- Build the transaction row inserted for a payload item, with fresh id and
created_at drawn from the counter c. -/
def mkTx (uid c : Nat) (it : Item) : Tx :=
  ⟨c, uid, it.date, it.time, it.client, it.origin, it.currency, it.amount,
   it.recipient, it.bank, it.kz, c⟩

/-- The rows inserted for a payload, ids and timestamps taken consecutively
from the counter. -/
def mkRows (uid : Nat) (c : Nat) : List Item → List Tx
  | [] => []
  | it :: rest => mkTx uid c it :: mkRows uid (c + 1) rest

/-- A row of the backups relation of app.py. -/
structure BackupRow where
  user_id : Nat
  name : String
  payload : List Item
  created_at : Nat
deriving Repr, DecidableEq

/-- The durable store: both relations in rowid (insertion) order, plus the
counter supplying fresh ids and timestamps. -/
structure DB where
  transactions : List Tx
  backups : List BackupRow
  counter : Nat
deriving Repr, DecidableEq

/-- The store as created by init_db: both relations empty. -/
def db0 : DB := ⟨[], [], 0⟩

/-- The SQL statements the handlers in app.py execute against the store. -/
inductive Stmt where
  | deleteTxsFor (uid : Nat)
  | deleteTxAdmin (txid : Nat)
  | deleteTxOwned (txid : Nat) (uid : Nat)
  | insertTx (uid : Nat) (item : Item)
  | insertBackup (uid : Nat) (name : String) (payload : List Item)
  | commit
deriving Repr, DecidableEq

/-- Effect of INSERT OR REPLACE INTO backups under the UNIQUE(user_id,name)
constraint: every conflicting row is removed and the new row is appended
with a fresh rowid. -/
def insRep (l : List BackupRow) (uid : Nat) (nm : String) (pay : List Item) (c : Nat) :
    List BackupRow :=
  l.filter (fun b => !(b.user_id == uid && b.name == nm)) ++ [⟨uid, nm, pay, c⟩]

/-- Effect of one statement on the (pending) state. -/
def applyStmt (db : DB) : Stmt → DB
  | .deleteTxsFor uid =>
      { db with transactions := db.transactions.filter (fun t => t.user_id != uid) }
  | .deleteTxAdmin i =>
      { db with transactions := db.transactions.filter (fun t => t.id != i) }
  | .deleteTxOwned i uid =>
      { db with transactions :=
          db.transactions.filter (fun t => !(t.id == i && t.user_id == uid)) }
  | .insertTx uid it =>
      { db with transactions := db.transactions ++ [mkTx uid db.counter it],
                counter := db.counter + 1 }
  | .insertBackup uid nm pay =>
      { db with backups := insRep db.backups uid nm pay db.counter,
                counter := db.counter + 1 }
  | .commit => db

/-- Run a list of statements against the pending state. -/
def execStmts (db : DB) (l : List Stmt) : DB := l.foldl applyStmt db

/-- One step of the durable/pending pair: commit publishes the pending
state, every other statement only updates the pending state. -/
def step (st : DB × DB) (s : Stmt) : DB × DB :=
  match s with
  | .commit => (st.2, st.2)
  | s => (st.1, applyStmt st.2 s)

/-- Durable state after a full run of a statement plan. -/
def runPlan (db : DB) (plan : List Stmt) : DB := (plan.foldl step (db, db)).1

/-- Durable state after the run fails having executed only the first k
statements of the plan: the pending transaction is rolled back when the
connection closes, so only committed work survives. -/
def durableAfter (db : DB) (plan : List Stmt) (k : Nat) : DB :=
  runPlan db (plan.take k)

/-- How a request to one of the handlers ends, as far as the caller can
observe: normal completion, one of the flashed error messages, the 404
abort, or an unhandled Python exception (HTTP 500). -/
inductive Outcome where
  | ok
  | validationError
  | notFoundError
  | http404
  | crash
deriving Repr, DecidableEq

/-- The form fields read by save_tx.  A field absent from the request is
modelled as the empty string: request.form.get yields a falsy value in
both cases and the handler treats them identically. -/
structure TxForm where
  date : String
  time : String
  client : String
  origin : String
  recipient : String
  bank : String
  amount : String
  kz : String
deriving Repr, DecidableEq

/-- The required_ok check of save_tx: the six required fields are truthy,
i.e. present and non-empty. -/
def requiredOk (f : TxForm) : Prop :=
  f.date ≠ "" ∧ f.time ≠ "" ∧ f.client ≠ "" ∧ f.recipient ≠ "" ∧
    f.amount ≠ "" ∧ f.kz ≠ ""

instance (f : TxForm) : Decidable (requiredOk f) := by
  unfold requiredOk; infer_instance

/-- The POST /tx/currency handler save_tx.  Python evaluates the argument
tuple of the INSERT left to right, so float(amount) is parsed before
int(float(kz)); a parse failure raises ValueError before any statement is
executed. -/
def save_tx (db : DB) (uid : Nat) (currency : String) (f : TxForm) : Outcome × DB :=
  if ¬(currency = "GBP" ∨ currency = "EUR") then (.http404, db)
  else if ¬requiredOk f then (.validationError, db)
  else
    match pyFloat? f.amount with
    | none => (.crash, db)
    | some a =>
      match pyFloat? f.kz with
      | none => (.crash, db)
      | some k =>
        (.ok, runPlan db
          [Stmt.insertTx uid
            ⟨f.date, f.time, pyStrip f.client, pyStrip f.origin, currency, a,
             pyStrip f.recipient, pyStrip f.bank, ratTrunc k⟩,
           Stmt.commit])

/-- The GET /tx/delete/id handler del_tx: admins delete by id alone,
everyone else deletes only within their own rows. -/
def del_tx (db : DB) (uid : Nat) (isAdmin : Bool) (txid : Nat) : DB :=
  if isAdmin then runPlan db [Stmt.deleteTxAdmin txid, Stmt.commit]
  else runPlan db [Stmt.deleteTxOwned txid uid, Stmt.commit]

/-- Rows of the transactions relation that belong to one owner, in rowid
order (the WHERE user_id=? scan of app.py). -/
def ownRows (db : DB) (u : Nat) : List Tx :=
  db.transactions.filter (fun t => t.user_id == u)

/-- Rows of the backups relation that belong to one owner. -/
def ownBackups (db : DB) (u : Nat) : List BackupRow :=
  db.backups.filter (fun b => b.user_id == u)

/-- Output order of the reports query ORDER BY date DESC, time DESC:
a may precede b iff its (date, time) key is at least b's, comparing the
TEXT columns bytewise as SQLite's BINARY collation does. -/
def txKeyGe (a b : Tx) : Prop :=
  strLt b.date a.date ∨ (b.date = a.date ∧ strLe b.time a.time)

instance : DecidableRel txKeyGe := fun a b => by
  unfold txKeyGe; infer_instance

/-- Payload-level version of the reports ordering. -/
def itemKeyGe (a b : Item) : Prop :=
  strLt b.date a.date ∨ (b.date = a.date ∧ strLe b.time a.time)

instance : DecidableRel itemKeyGe := fun a b => by
  unfold itemKeyGe; infer_instance

/-- The ORDER BY of reports_page, modelled as a stable sort of the rowid
scan: SQLite feeds rows to the sorter in rowid order and rows with equal
keys come out in the order fed in. -/
def sortTx (l : List Tx) : List Tx := l.insertionSort txKeyGe

/-- The same stable sort on stripped payload items. -/
def sortItems (l : List Item) : List Item := l.insertionSort itemKeyGe

/-- The row list served by GET /reports: admins see every owner's rows,
everyone else only their own, sorted by date then time descending. -/
def listFor (db : DB) (uid : Nat) (isAdmin : Bool) : List Tx :=
  if isAdmin then sortTx db.transactions else sortTx (ownRows db uid)

/-- Python sum of the amounts of the rows in one currency, as computed by
reports_page (left fold from 0 over the scoped rows). -/
def sumCur (c : String) (rows : List Tx) : ℚ :=
  ((rows.filter (fun r => r.currency == c)).map Tx.amount).sum

/-- Python sum of the kz column over the scoped rows. -/
def sumKz (rows : List Tx) : ℤ := (rows.map Tx.kz).sum

/-- The three totals shown by reports_page: GBP received, EUR received and
kz sent, over the same scoped row set the table shows. -/
def aggregateFor (db : DB) (uid : Nat) (isAdmin : Bool) : ℚ × ℚ × ℤ :=
  (sumCur "GBP" (listFor db uid isAdmin),
   sumCur "EUR" (listFor db uid isAdmin),
   sumKz (listFor db uid isAdmin))

/-- The POST /backups/save handler save_backup: trims the name, rejects an
empty one, otherwise snapshots the caller's rows (stripped, rowid order)
under (user, name) with INSERT OR REPLACE. -/
def save_backup (db : DB) (uid : Nat) (rawName : String) : Outcome × DB :=
  if pyStrip rawName = "" then (.validationError, db)
  else
    (.ok, runPlan db
      [Stmt.insertBackup uid (pyStrip rawName) ((ownRows db uid).map Tx.strip),
       Stmt.commit])

/-- First backups row matching (user, name), as the SELECT ... fetchone of
load_backup returns it. -/
def lookupBackup (db : DB) (uid : Nat) (name : String) : Option BackupRow :=
  db.backups.find? (fun b => b.user_id == uid && b.name == name)

/-- The statement plan of the restore step: delete every row of the owner,
reinsert the payload in order, then commit once. -/
def replacePlan (uid : Nat) (records : List Item) : List Stmt :=
  Stmt.deleteTxsFor uid :: records.map (Stmt.insertTx uid) ++ [Stmt.commit]

/-- The delete-then-reinsert step performed by load_backup, run to
completion (the spec's replaceAllFor). -/
def replaceAllFor (db : DB) (uid : Nat) (records : List Item) : DB :=
  runPlan db (replacePlan uid records)

/-- The POST /backups/load handler load_backup: trims the name, fails with
the not-found flash when no snapshot matches, otherwise replaces the
caller's rows with the payload under a single commit. -/
def load_backup (db : DB) (uid : Nat) (rawName : String) : Outcome × DB :=
  match lookupBackup db uid (pyStrip rawName) with
  | none => (.notFoundError, db)
  | some row => (.ok, runPlan db (replacePlan uid row.payload))

/-- The statement plan of do_reset_totals: store the snapshot, wipe the
owner's rows, then commit once. -/
def resetPlan (uid : Nat) (name : String) (payload : List Item) : List Stmt :=
  [Stmt.insertBackup uid name payload, Stmt.deleteTxsFor uid, Stmt.commit]

/-- The POST /reset-totals handler do_reset_totals: trims the name (without
checking it for emptiness), snapshots the caller's rows and deletes them,
all under a single commit. -/
def do_reset_totals (db : DB) (uid : Nat) (rawName : String) : Outcome × DB :=
  (.ok, runPlan db (resetPlan uid (pyStrip rawName) ((ownRows db uid).map Tx.strip)))

/-- The store-mutating requests a caller can issue, used to quantify over
arbitrary operation sequences. -/
inductive Op where
  | saveTx (uid : Nat) (currency : String) (f : TxForm)
  | delTx (uid : Nat) (isAdmin : Bool) (txid : Nat)
  | saveBackup (uid : Nat) (name : String)
  | loadBackup (uid : Nat) (name : String)
  | resetTotals (uid : Nat) (name : String)
deriving Repr

/-- Durable state after one request, whatever its outcome. -/
def applyOp (db : DB) : Op → DB
  | .saveTx uid cur f => (save_tx db uid cur f).2
  | .delTx uid isAdmin i => del_tx db uid isAdmin i
  | .saveBackup uid nm => (save_backup db uid nm).2
  | .loadBackup uid nm => (load_backup db uid nm).2
  | .resetTotals uid nm => (do_reset_totals db uid nm).2

/-- Durable state after a sequence of requests. -/
def runOps (db : DB) (ops : List Op) : DB := ops.foldl applyOp db

/-- The UNIQUE(user_id, name) invariant of the backups relation. -/
def uniqueKeysL (l : List BackupRow) : Prop :=
  l.Pairwise (fun a b => ¬(a.user_id = b.user_id ∧ a.name = b.name))

/-- The backups relation of a store satisfies its unique-key constraint. -/
def uniqueKeys (db : DB) : Prop := uniqueKeysL db.backups

/-- Owner isolation for a non-elevated caller A with respect to another
owner B: none of A's requests alters B's rows or snapshots, A's reads
depend only on A's own rows and snapshots, and a delete aimed at a foreign
id is silently scoped down to A's own rows. -/
def OwnerIsolation (db : DB) (A B : Nat) : Prop :=
  (∀ cur f, ownRows ((save_tx db A cur f).2) B = ownRows db B ∧
    ((save_tx db A cur f).2).backups = db.backups) ∧
  (∀ i, ownRows (del_tx db A false i) B = ownRows db B ∧
    (del_tx db A false i).backups = db.backups) ∧
  (∀ nm, ((save_backup db A nm).2).transactions = db.transactions ∧
    ownBackups ((save_backup db A nm).2) B = ownBackups db B) ∧
  (∀ nm, ownRows ((load_backup db A nm).2) B = ownRows db B ∧
    ownBackups ((load_backup db A nm).2) B = ownBackups db B) ∧
  (∀ nm, ownRows ((do_reset_totals db A nm).2) B = ownRows db B ∧
    ownBackups ((do_reset_totals db A nm).2) B = ownBackups db B) ∧
  (∀ db' : DB, ownRows db' A = ownRows db A →
    listFor db' A false = listFor db A false ∧
    aggregateFor db' A false = aggregateFor db A false) ∧
  (∀ db' : DB, ∀ nm, ownRows db' A = ownRows db A → ownBackups db' A = ownBackups db A →
    (load_backup db' A nm).1 = (load_backup db A nm).1 ∧
    (save_backup db' A nm).1 = (save_backup db A nm).1 ∧
    (ownRows ((load_backup db' A nm).2) A).map Tx.strip
      = (ownRows ((load_backup db A nm).2) A).map Tx.strip) ∧
  (∀ i, (del_tx db A false i).transactions
      = db.transactions.filter (fun t => !(t.id == i && t.user_id == A)))

/-- Sample payload items, rows and forms used by the concrete witnesses
and counterexamples below. -/
def itA : Item := ⟨"2025-01-01", "10:00", "ca", "", "GBP", 1, "xa", "", 1⟩

/-- Second sample payload item, dated later than itA. -/
def itB : Item := ⟨"2025-01-02", "09:00", "cb", "", "EUR", 2, "xb", "", 2⟩

/-- Sample row of owner 1; same date and time as tx2 but inserted first. -/
def tx1 : Tx := ⟨0, 1, "2025-01-01", "10:00", "c1", "", "GBP", 1, "x1", "", 1, 0⟩

/-- Sample row of owner 1; same date and time as tx1 but inserted second. -/
def tx2 : Tx := ⟨1, 1, "2025-01-01", "10:00", "c2", "", "GBP", 2, "x2", "", 2, 1⟩

/-- Store holding the two tied rows of owner 1. -/
def tieDb : DB := ⟨[tx1, tx2], [], 2⟩

/-- A completely filled transaction form whose amount is negative. -/
def negForm : TxForm := ⟨"2025-01-01", "10:00", "Alice", "", "Bob", "", "-5", "100"⟩

/-- A completely filled transaction form whose client is only whitespace. -/
def wsForm : TxForm := ⟨"2025-01-01", "10:00", " ", "", "Bob", "", "5", "100"⟩

/-- A completely filled transaction form with a fractional kz field. -/
def kzForm : TxForm := ⟨"2025-01-01", "10:00", "Alice", "", "Bob", "", "10.00", "5.9"⟩

/-- Sample row: 10.00 GBP received, 16500 kz sent. -/
def txGBP1 : Tx := ⟨0, 1, "2025-01-01", "10:00", "a", "", "GBP", 10, "r", "", 16500, 0⟩

/-- Sample row: 5.50 GBP received, 9075 kz sent. -/
def txGBP2 : Tx := ⟨1, 1, "2025-01-01", "11:00", "b", "", "GBP", mkRat 11 2, "r", "", 9075, 1⟩

/-- Sample row: 20.00 EUR received, 33000 kz sent. -/
def txEUR1 : Tx := ⟨2, 1, "2025-01-01", "12:00", "c", "", "EUR", 20, "r", "", 33000, 2⟩

/-- Store holding the three sample rows of the spec's aggregate example. -/
def aggDb : DB := ⟨[txGBP1, txGBP2, txEUR1], [], 3⟩

/-! ### Order lemmas for the BINARY text collation -/

theorem lexLe_refl (cs : List Char) : lexLe cs cs = true := by
  induction cs with
  | nil => rfl
  | cons c cs ih => simp [lexLe, ih]

theorem lexLe_total (a b : List Char) : lexLe a b = true ∨ lexLe b a = true := by
  induction a generalizing b with
  | nil => left; rfl
  | cons x xs ih =>
    cases b with
    | nil => right; rfl
    | cons y ys =>
      rcases lt_trichotomy x y with h | h | h
      · left; simp [lexLe, h]
      · subst h
        rcases ih ys with h2 | h2
        · left; simp [lexLe, h2]
        · right; simp [lexLe, h2]
      · right; simp [lexLe, h]

theorem lexLe_trans {a b c : List Char} (h1 : lexLe a b = true)
    (h2 : lexLe b c = true) : lexLe a c = true := by
  induction a generalizing b c with
  | nil => rfl
  | cons x xs ih =>
    cases b with
    | nil => simp [lexLe] at h1
    | cons y ys =>
      cases c with
      | nil => simp [lexLe] at h2
      | cons z zs =>
        rcases lt_trichotomy x y with hxy | hxy | hxy
        · rcases lt_trichotomy y z with hyz | hyz | hyz
          · simp [lexLe, lt_trans hxy hyz]
          · subst hyz; simp [lexLe, hxy]
          · have hne : ¬y < z := asymm hyz
            simp [lexLe, hne, hyz] at h2
        · subst hxy
          rcases lt_trichotomy x z with hyz | hyz | hyz
          · simp [lexLe, hyz]
          · subst hyz
            simp only [lexLe, lt_self_iff_false, if_false] at h1 h2 ⊢
            exact ih h1 h2
          · have hne : ¬x < z := asymm hyz
            simp [lexLe, hne, hyz] at h2
        · have hne : ¬x < y := asymm hxy
          simp [lexLe, hne, hxy] at h1

theorem lexLe_antisymm {a b : List Char} (h1 : lexLe a b = true)
    (h2 : lexLe b a = true) : a = b := by
  induction a generalizing b with
  | nil =>
    cases b with
    | nil => rfl
    | cons y ys => simp [lexLe] at h2
  | cons x xs ih =>
    cases b with
    | nil => simp [lexLe] at h1
    | cons y ys =>
      rcases lt_trichotomy x y with h | h | h
      · have hne : ¬y < x := asymm h
        simp [lexLe, hne, h] at h2
      · subst h
        simp only [lexLe, lt_self_iff_false, if_false] at h1 h2
        rw [ih h1 h2]
      · have hne : ¬x < y := asymm h
        simp [lexLe, hne, h] at h1

theorem lexLt_eq_not_lexLe (a b : List Char) : lexLt a b = !lexLe b a := by
  induction a generalizing b with
  | nil => cases b <;> rfl
  | cons x xs ih =>
    cases b with
    | nil => rfl
    | cons y ys =>
      rcases lt_trichotomy x y with h | h | h
      · have hne : ¬y < x := asymm h
        simp [lexLt, lexLe, h, hne]
      · subst h; simp [lexLt, lexLe, ih ys]
      · have hne : ¬x < y := asymm h
        simp [lexLt, lexLe, h, hne]

theorem strLe_refl (s : String) : strLe s s := lexLe_refl s.data

theorem strLe_total (s t : String) : strLe s t ∨ strLe t s := lexLe_total s.data t.data

theorem strLe_trans {s t u : String} (h1 : strLe s t) (h2 : strLe t u) : strLe s u :=
  lexLe_trans h1 h2

theorem strLe_antisymm {s t : String} (h1 : strLe s t) (h2 : strLe t s) : s = t := by
  cases s; cases t
  exact congrArg String.mk (lexLe_antisymm h1 h2)

theorem strLt_iff_not_le {s t : String} : strLt s t ↔ ¬strLe t s := by
  unfold strLt strLe
  rw [lexLt_eq_not_lexLe]
  cases lexLe t.data s.data <;> simp

theorem strLt_of_le_of_ne {s t : String} (h1 : strLe s t) (h2 : s ≠ t) : strLt s t :=
  strLt_iff_not_le.2 fun hle => h2 (strLe_antisymm h1 hle)

theorem strLt_trans {s t u : String} (h1 : strLt s t) (h2 : strLt t u) : strLt s u := by
  rw [strLt_iff_not_le] at h1 h2 ⊢
  intro hus
  rcases strLe_total t u with h | h
  · exact h1 (strLe_trans h hus)
  · exact h2 h

theorem strLe_of_lt {s t : String} (h : strLt s t) : strLe s t := by
  rcases strLe_total s t with h2 | h2
  · exact h2
  · exact absurd h2 (strLt_iff_not_le.1 h)

/-! ### The reports ordering is total and transitive -/

instance : IsTotal Tx txKeyGe := by
  constructor
  intro a b
  unfold txKeyGe
  by_cases hd : a.date = b.date
  · rcases strLe_total a.time b.time with h | h
    · right; right; exact ⟨hd, h⟩
    · left; right; exact ⟨hd.symm, h⟩
  · rcases strLe_total a.date b.date with h | h
    · right; left; exact strLt_of_le_of_ne h hd
    · left; left; exact strLt_of_le_of_ne h (Ne.symm hd)

instance : IsTrans Tx txKeyGe := by
  constructor
  intro a b c h1 h2
  unfold txKeyGe at h1 h2 ⊢
  rcases h1 with h1 | ⟨h1e, h1t⟩
  · rcases h2 with h2 | ⟨h2e, h2t⟩
    · exact Or.inl (strLt_trans h2 h1)
    · exact Or.inl (h2e ▸ h1)
  · rcases h2 with h2 | ⟨h2e, h2t⟩
    · exact Or.inl (h1e ▸ h2)
    · exact Or.inr ⟨h2e.trans h1e, strLe_trans h2t h1t⟩

/-! ### Sortedness, permutation and stability of the reports ordering -/

theorem sortTx_perm (l : List Tx) : (sortTx l).Perm l :=
  List.perm_insertionSort txKeyGe l

theorem sortTx_sorted (l : List Tx) : (sortTx l).Pairwise txKeyGe :=
  List.sorted_insertionSort txKeyGe l

theorem filter_orderedInsert_tie (p : Tx → Bool)
    (hp : ∀ a b, p a = true → p b = true → txKeyGe a b) (x : Tx) (l : List Tx) :
    (l.orderedInsert txKeyGe x).filter p =
      if p x then x :: l.filter p else l.filter p := by
  induction l with
  | nil =>
    cases hx : p x <;> simp [List.orderedInsert, List.filter, hx]
  | cons y ys ih =>
    by_cases hin : txKeyGe x y
    · rw [List.orderedInsert, if_pos hin]
      cases hx : p x <;> simp [List.filter_cons, hx]
    · rw [List.orderedInsert, if_neg hin]
      cases hx : p x
      · cases hy : p y <;> simp [List.filter_cons, hx, hy, ih]
      · have hy : p y = false := by
          cases hyy : p y
          · rfl
          · exact absurd (hp x y hx hyy) hin
        simp [List.filter_cons, hy, hx, ih]

theorem filter_sortTx_tie (p : Tx → Bool)
    (hp : ∀ a b, p a = true → p b = true → txKeyGe a b) (l : List Tx) :
    (sortTx l).filter p = l.filter p := by
  induction l with
  | nil => rfl
  | cons x xs ih =>
    unfold sortTx at ih ⊢
    rw [List.insertionSort, filter_orderedInsert_tie p hp, ih, List.filter_cons]

theorem sortTx_map_strip (l : List Tx) :
    (sortTx l).map Tx.strip = sortItems (l.map Tx.strip) :=
  List.map_insertionSort txKeyGe itemKeyGe Tx.strip l
    (fun _ _ _ _ => Iff.rfl)

/-! ### Durable-transaction machinery -/

theorem step_ne_commit (st : DB × DB) (s : Stmt) (h : s ≠ Stmt.commit) :
    step st s = (st.1, applyStmt st.2 s) := by
  cases s <;> first | rfl | exact absurd rfl h

theorem foldl_step_no_commit (l : List Stmt) (h : Stmt.commit ∉ l) (dur pen : DB) :
    l.foldl step (dur, pen) = (dur, execStmts pen l) := by
  induction l generalizing pen with
  | nil => rfl
  | cons s rest ih =>
    have hs : s ≠ Stmt.commit := fun he => h (he ▸ List.mem_cons_self s rest)
    have hrest : Stmt.commit ∉ rest := fun hm => h (List.mem_cons_of_mem _ hm)
    rw [List.foldl_cons, step_ne_commit _ _ hs]
    exact ih hrest (applyStmt pen s)

theorem runPlan_no_commit (db : DB) (l : List Stmt) (h : Stmt.commit ∉ l) :
    runPlan db l = db := by
  unfold runPlan
  rw [foldl_step_no_commit l h]

theorem runPlan_append_commit (db : DB) (body : List Stmt) (h : Stmt.commit ∉ body) :
    runPlan db (body ++ [Stmt.commit]) = execStmts db body := by
  unfold runPlan
  rw [List.foldl_append, foldl_step_no_commit body h]
  rfl

theorem durableAfter_unchanged (db : DB) (body : List Stmt) (h : Stmt.commit ∉ body)
    (k : Nat) (hk : k < (body ++ [Stmt.commit]).length) :
    durableAfter db (body ++ [Stmt.commit]) k = db := by
  have hk2 : k ≤ body.length := by
    have := hk
    simp only [List.length_append, List.length_cons, List.length_nil] at this
    omega
  unfold durableAfter
  rw [List.take_append_of_le_length hk2]
  exact runPlan_no_commit db _ (fun hm => h (List.take_subset _ _ hm))

theorem runPlan_one_commit (db : DB) (s : Stmt) (h : s ≠ Stmt.commit) :
    runPlan db [s, Stmt.commit] = applyStmt db s := by
  have : [s, Stmt.commit] = [s] ++ [Stmt.commit] := rfl
  rw [this, runPlan_append_commit db [s] (by simpa using Ne.symm h)]
  rfl

theorem runPlan_two_commit (db : DB) (s1 s2 : Stmt) (h1 : s1 ≠ Stmt.commit)
    (h2 : s2 ≠ Stmt.commit) :
    runPlan db [s1, s2, Stmt.commit] = applyStmt (applyStmt db s1) s2 := by
  have : [s1, s2, Stmt.commit] = [s1, s2] ++ [Stmt.commit] := rfl
  rw [this, runPlan_append_commit db [s1, s2] (by simpa using ⟨Ne.symm h1, Ne.symm h2⟩)]
  rfl

theorem execStmts_insertTxs (uid : Nat) (P : List Item) (db : DB) :
    execStmts db (P.map (Stmt.insertTx uid)) =
      ⟨db.transactions ++ mkRows uid db.counter P, db.backups, db.counter + P.length⟩ := by
  induction P generalizing db with
  | nil => cases db; simp [execStmts, mkRows]
  | cons it rest ih =>
    rw [List.map_cons]
    show execStmts (applyStmt db (Stmt.insertTx uid it)) _ = _
    rw [ih]
    simp [applyStmt, mkRows]
    omega

/-! ### Characterizations of the handlers' durable effects -/

theorem replacePlan_eq (uid : Nat) (records : List Item) :
    replacePlan uid records =
      (Stmt.deleteTxsFor uid :: records.map (Stmt.insertTx uid)) ++ [Stmt.commit] := rfl

theorem commit_not_mem_replaceBody (uid : Nat) (records : List Item) :
    Stmt.commit ∉ Stmt.deleteTxsFor uid :: records.map (Stmt.insertTx uid) := by
  simp

theorem replaceAllFor_eq (db : DB) (uid : Nat) (records : List Item) :
    replaceAllFor db uid records =
      ⟨db.transactions.filter (fun t => t.user_id != uid) ++ mkRows uid db.counter records,
       db.backups, db.counter + records.length⟩ := by
  unfold replaceAllFor
  rw [replacePlan_eq, runPlan_append_commit _ _ (commit_not_mem_replaceBody uid records)]
  show execStmts (applyStmt db (Stmt.deleteTxsFor uid)) _ = _
  rw [execStmts_insertTxs]
  rfl

theorem save_backup_eq (db : DB) (uid : Nat) (nm : String) (h : pyStrip nm ≠ "") :
    save_backup db uid nm =
      (.ok, ⟨db.transactions,
             insRep db.backups uid (pyStrip nm) ((ownRows db uid).map Tx.strip) db.counter,
             db.counter + 1⟩) := by
  unfold save_backup
  rw [if_neg h, runPlan_one_commit _ _ (fun hc => Stmt.noConfusion hc)]
  rfl

theorem do_reset_eq (db : DB) (uid : Nat) (nm : String) :
    do_reset_totals db uid nm =
      (.ok, ⟨db.transactions.filter (fun t => t.user_id != uid),
             insRep db.backups uid (pyStrip nm) ((ownRows db uid).map Tx.strip) db.counter,
             db.counter + 1⟩) := by
  unfold do_reset_totals resetPlan
  rw [runPlan_two_commit _ _ _ (fun hc => Stmt.noConfusion hc) (fun hc => Stmt.noConfusion hc)]
  rfl

theorem load_backup_found (db : DB) (uid : Nat) (nm : String) (row : BackupRow)
    (h : lookupBackup db uid (pyStrip nm) = some row) :
    load_backup db uid nm = (.ok, replaceAllFor db uid row.payload) := by
  unfold load_backup replaceAllFor
  rw [h]

theorem load_backup_missing (db : DB) (uid : Nat) (nm : String)
    (h : lookupBackup db uid (pyStrip nm) = none) :
    load_backup db uid nm = (.notFoundError, db) := by
  unfold load_backup
  rw [h]

theorem save_tx_ok_eq (db : DB) (uid : Nat) (cur : String) (f : TxForm) (a k : ℚ)
    (hcur : cur = "GBP" ∨ cur = "EUR") (hreq : requiredOk f)
    (ha : pyFloat? f.amount = some a) (hk : pyFloat? f.kz = some k) :
    save_tx db uid cur f =
      (.ok, ⟨db.transactions ++
              [mkTx uid db.counter
                ⟨f.date, f.time, pyStrip f.client, pyStrip f.origin, cur, a,
                 pyStrip f.recipient, pyStrip f.bank, ratTrunc k⟩],
             db.backups, db.counter + 1⟩) := by
  unfold save_tx
  rw [if_neg (not_not_intro hcur), if_neg (not_not_intro hreq), ha, hk]
  rfl

theorem del_tx_nonadmin_eq (db : DB) (uid i : Nat) :
    del_tx db uid false i =
      ⟨db.transactions.filter (fun t => !(t.id == i && t.user_id == uid)),
       db.backups, db.counter⟩ := by
  unfold del_tx
  rw [if_neg (by simp), runPlan_one_commit _ _ (fun hc => Stmt.noConfusion hc)]
  rfl

theorem del_tx_admin_eq (db : DB) (uid i : Nat) :
    del_tx db uid true i =
      ⟨db.transactions.filter (fun t => t.id != i), db.backups, db.counter⟩ := by
  unfold del_tx
  rw [if_pos rfl, runPlan_one_commit _ _ (fun hc => Stmt.noConfusion hc)]
  rfl

/-! ### Facts about freshly inserted rows and owner scoping -/

theorem strip_mkTx (uid c : Nat) (it : Item) : (mkTx uid c it).strip = it := rfl

theorem mkRows_map_strip (uid : Nat) (P : List Item) :
    ∀ c, (mkRows uid c P).map Tx.strip = P := by
  induction P with
  | nil => intro c; rfl
  | cons it rest ih => intro c; simp [mkRows, strip_mkTx, ih]

theorem mkRows_user (uid c : Nat) (P : List Item) : ∀ t ∈ mkRows uid c P, t.user_id = uid := by
  induction P generalizing c with
  | nil => intro t ht; cases ht
  | cons it rest ih =>
    intro t ht
    rcases List.mem_cons.mp ht with h | h
    · subst h; rfl
    · exact ih (c + 1) t h

theorem mkRows_length (uid : Nat) (P : List Item) :
    ∀ c, (mkRows uid c P).length = P.length := by
  induction P with
  | nil => intro c; rfl
  | cons it rest ih => intro c; simp [mkRows, ih]

theorem mkRows_filter_self (uid c : Nat) (P : List Item) :
    (mkRows uid c P).filter (fun t => t.user_id == uid) = mkRows uid c P := by
  apply List.filter_eq_self.2
  intro t ht
  simp [mkRows_user uid c P t ht]

theorem mkRows_filter_ne (uid B c : Nat) (h : B ≠ uid) (P : List Item) :
    (mkRows uid c P).filter (fun t => t.user_id == B) = [] := by
  apply List.filter_eq_nil_iff.2
  intro t ht
  simp [mkRows_user uid c P t ht, Ne.symm h]

theorem filter_user_of_del_all (l : List Tx) (A B : Nat) (h : A ≠ B) :
    (l.filter (fun t => t.user_id != A)).filter (fun t => t.user_id == B)
      = l.filter (fun t => t.user_id == B) := by
  rw [List.filter_filter]
  apply List.filter_congr
  intro t _
  by_cases hB : t.user_id = B
  · simp [hB, Ne.symm h]
  · simp [hB]

theorem filter_user_of_del_owned (l : List Tx) (A B i : Nat) (h : A ≠ B) :
    (l.filter (fun t => !(t.id == i && t.user_id == A))).filter (fun t => t.user_id == B)
      = l.filter (fun t => t.user_id == B) := by
  rw [List.filter_filter]
  apply List.filter_congr
  intro t _
  by_cases hB : t.user_id = B
  · simp [hB, Ne.symm h]
  · simp [hB]

theorem filter_user_append_mk (l : List Tx) (A B c : Nat) (h : A ≠ B) (it : Item) :
    (l ++ [mkTx A c it]).filter (fun t => t.user_id == B)
      = l.filter (fun t => t.user_id == B) := by
  rw [List.filter_append]
  have : (mkTx A c it).user_id = A := rfl
  simp [List.filter_cons, this, h]

theorem ownBackups_insRep_ne (l : List BackupRow) (A B : Nat) (h : A ≠ B)
    (nm : String) (pay : List Item) (c : Nat) :
    (insRep l A nm pay c).filter (fun b => b.user_id == B)
      = l.filter (fun b => b.user_id == B) := by
  unfold insRep
  rw [List.filter_append, List.filter_filter]
  have h1 : List.filter (fun b => (b.user_id == B) && !(b.user_id == A && b.name == nm)) l
      = List.filter (fun b => b.user_id == B) l := by
    apply List.filter_congr
    intro b _
    by_cases hB : b.user_id = B
    · simp [hB, Ne.symm h]
    · simp [hB]
  rw [h1]
  simp [List.filter_cons, h]

/-! ### Lookup of a freshly written snapshot -/

theorem find?_filter_none (l : List BackupRow) (p : BackupRow → Bool) :
    (l.filter (fun b => !(p b))).find? p = none := by
  apply List.find?_eq_none.2
  intro b hb
  have := (List.mem_filter.mp hb).2
  simp at this
  simp [this]

theorem lookupBackup_insRep_self (tr : List Tx) (l : List BackupRow) (c0 : Nat)
    (uid : Nat) (nm : String) (pay : List Item) (c : Nat) :
    lookupBackup ⟨tr, insRep l uid nm pay c, c0⟩ uid nm = some ⟨uid, nm, pay, c⟩ := by
  unfold lookupBackup insRep
  rw [List.find?_append, find?_filter_none]
  simp

/-! ### The UNIQUE(user_id, name) invariant is preserved -/

theorem uniqueKeysL_insRep (l : List BackupRow) (uid : Nat) (nm : String)
    (pay : List Item) (c : Nat) (h : uniqueKeysL l) :
    uniqueKeysL (insRep l uid nm pay c) := by
  unfold uniqueKeysL insRep
  rw [List.pairwise_append]
  refine ⟨h.sublist (List.filter_sublist l), List.pairwise_singleton _ _, ?_⟩
  intro a ha b hb
  have hmem := (List.mem_filter.mp ha).2
  have hb2 : b = (⟨uid, nm, pay, c⟩ : BackupRow) := by simpa using hb
  subst hb2
  simp only [not_and]
  intro h1 h2
  simp [h1, h2] at hmem

theorem uniqueKeysL_applyStmt (db : DB) (s : Stmt) (h : uniqueKeysL db.backups) :
    uniqueKeysL (applyStmt db s).backups := by
  cases s with
  | insertBackup uid nm pay => exact uniqueKeysL_insRep _ _ _ _ _ h
  | deleteTxsFor uid => exact h
  | deleteTxAdmin i => exact h
  | deleteTxOwned i uid => exact h
  | insertTx uid it => exact h
  | commit => exact h

theorem uniqueKeys_runPlan (db : DB) (plan : List Stmt) (h : uniqueKeys db) :
    uniqueKeys (runPlan db plan) := by
  suffices H : ∀ (l : List Stmt) (st : DB × DB), uniqueKeysL st.1.backups →
      uniqueKeysL st.2.backups →
      uniqueKeysL ((l.foldl step st).1).backups ∧ uniqueKeysL ((l.foldl step st).2).backups by
    exact (H plan (db, db) h h).1
  intro l
  induction l with
  | nil => intro st h1 h2; exact ⟨h1, h2⟩
  | cons s rest ih =>
    intro st h1 h2
    rw [List.foldl_cons]
    cases s with
    | commit => exact ih _ h2 h2
    | deleteTxsFor uid => exact ih _ h1 (uniqueKeysL_applyStmt _ _ h2)
    | deleteTxAdmin i => exact ih _ h1 (uniqueKeysL_applyStmt _ _ h2)
    | deleteTxOwned i uid => exact ih _ h1 (uniqueKeysL_applyStmt _ _ h2)
    | insertTx uid it => exact ih _ h1 (uniqueKeysL_applyStmt _ _ h2)
    | insertBackup uid nm pay => exact ih _ h1 (uniqueKeysL_applyStmt _ _ h2)

theorem uniqueKeys_applyOp (db : DB) (op : Op) (h : uniqueKeys db) :
    uniqueKeys (applyOp db op) := by
  cases op with
  | saveTx uid cur f =>
    show uniqueKeys (save_tx db uid cur f).2
    unfold save_tx
    split
    · exact h
    · split
      · exact h
      · split
        · exact h
        · split
          · exact h
          · exact uniqueKeys_runPlan _ _ h
  | delTx uid isAdmin i =>
    show uniqueKeys (del_tx db uid isAdmin i)
    unfold del_tx
    split <;> exact uniqueKeys_runPlan _ _ h
  | saveBackup uid nm =>
    show uniqueKeys (save_backup db uid nm).2
    unfold save_backup
    split
    · exact h
    · exact uniqueKeys_runPlan _ _ h
  | loadBackup uid nm =>
    show uniqueKeys (load_backup db uid nm).2
    unfold load_backup
    split
    · exact h
    · exact uniqueKeys_runPlan _ _ h
  | resetTotals uid nm =>
    show uniqueKeys (do_reset_totals db uid nm).2
    exact uniqueKeys_runPlan _ _ h

theorem uniqueKeys_runOps (db : DB) (h : uniqueKeys db) (ops : List Op) :
    uniqueKeys (runOps db ops) := by
  induction ops generalizing db with
  | nil => exact h
  | cons op rest ih => exact ih _ (uniqueKeys_applyOp db op h)

/-! ### Remaining scoping helpers -/

theorem filter_user_del_self (l : List Tx) (A : Nat) :
    (l.filter (fun t => t.user_id != A)).filter (fun t => t.user_id == A) = [] := by
  apply List.filter_eq_nil_iff.2
  intro t ht
  have := (List.mem_filter.mp ht).2
  simp at this
  simp [this]

theorem filter_not_filter (l : List BackupRow) (p : BackupRow → Bool) :
    (l.filter (fun b => !(p b))).filter p = [] := by
  apply List.filter_eq_nil_iff.2
  intro b hb
  have := (List.mem_filter.mp hb).2
  simp at this
  simp [this]

theorem filter_key_insRep (l : List BackupRow) (uid : Nat) (nm : String)
    (pay : List Item) (c : Nat) :
    (insRep l uid nm pay c).filter (fun b => b.user_id == uid && b.name == nm)
      = [⟨uid, nm, pay, c⟩] := by
  unfold insRep
  rw [List.filter_append, filter_not_filter]
  simp

theorem find?_key_eq_filter_user (l : List BackupRow) (u : Nat) (n : String) :
    l.find? (fun b => b.user_id == u && b.name == n)
      = (l.filter (fun b => b.user_id == u)).find? (fun b => b.name == n) := by
  induction l with
  | nil => rfl
  | cons b l ih =>
    by_cases hu : b.user_id = u
    · have hbu : (b.user_id == u) = true := by simp [hu]
      cases hn : (b.name == n) with
      | true => simp [List.find?, List.filter_cons, hbu, hn]
      | false => simp [List.find?, List.filter_cons, hbu, hn, ih]
    · have hbu : (b.user_id == u) = false := by simp [hu]
      simp [List.find?, List.filter_cons, hbu, ih]

theorem listFor_nonadmin (db : DB) (uid : Nat) :
    listFor db uid false = sortTx (ownRows db uid) := by
  unfold listFor
  rw [if_neg (by simp)]

theorem ownRows_replaceAllFor (db : DB) (uid : Nat) (records : List Item) :
    ownRows (replaceAllFor db uid records) uid = mkRows uid db.counter records := by
  rw [replaceAllFor_eq]
  show (db.transactions.filter _ ++ _).filter _ = _
  rw [List.filter_append, filter_user_del_self, mkRows_filter_self]
  rfl

theorem save_tx_snd_cases (db : DB) (uid : Nat) (cur : String) (f : TxForm) :
    (save_tx db uid cur f).2.backups = db.backups ∧
    ((save_tx db uid cur f).2.transactions = db.transactions ∨
      ∃ it : Item,
        (save_tx db uid cur f).2.transactions = db.transactions ++ [mkTx uid db.counter it]) := by
  unfold save_tx
  split
  · exact ⟨rfl, Or.inl rfl⟩
  · split
    · exact ⟨rfl, Or.inl rfl⟩
    · split
      · exact ⟨rfl, Or.inl rfl⟩
      · split
        · exact ⟨rfl, Or.inl rfl⟩
        · exact ⟨rfl, Or.inr ⟨_, rfl⟩⟩

/-! ### The claims -/

/-- Claim C1 (atomic replace): running the delete-then-reinsert step of
load_backup to completion leaves the owner's stored rows exactly the
replacement content (stripped of the freshly assigned ids and timestamps,
order preserved), so a subsequent listFor serves exactly that content;
while a run that fails after any number of statements strictly before the
single final commit leaves the durable store unchanged — there is no
reachable durable state in which the owner's rows are deleted but the
replacements not yet inserted. -/
theorem C1_replace_atomic (db : DB) (uid : Nat) (records : List Item) :
    (ownRows (replaceAllFor db uid records) uid).map Tx.strip = records ∧
    ((listFor (replaceAllFor db uid records) uid false).map Tx.strip).Perm records ∧
    ∀ k, k < (replacePlan uid records).length →
      durableAfter db (replacePlan uid records) k = db := by
  refine ⟨?_, ?_, ?_⟩
  · rw [ownRows_replaceAllFor, mkRows_map_strip]
  · rw [listFor_nonadmin, ownRows_replaceAllFor]
    have h2 := (sortTx_perm (mkRows uid db.counter records)).map Tx.strip
    rw [mkRows_map_strip] at h2
    exact h2
  · intro k hk
    rw [replacePlan_eq] at hk ⊢
    exact durableAfter_unchanged db _ (commit_not_mem_replaceBody uid records) k hk

/-- Witness for C1 at a concrete store, payload and failure point. -/
theorem C1_witness :
    1 < (replacePlan 1 [itA]).length ∧ durableAfter db0 (replacePlan 1 [itA]) 1 = db0 :=
  ⟨by decide, (C1_replace_atomic db0 1 [itA]).2.2 1 (by decide)⟩

/-- Claim C2, amended: do_reset_totals always reports success; it stores a
snapshot of the owner's current rows (as many snapshot entries as ledger
rows) under the trimmed name, empties the owner's ledger, and is atomic —
a failure after any number of statements strictly before the single final
commit leaves the durable store (ledger and snapshots) unchanged.  Unlike
save_backup it performs no name validation, so this holds even for a name
that is empty after trimming. -/
theorem C2_reset_behaviour (db : DB) (uid : Nat) (nm : String) :
    (do_reset_totals db uid nm).1 = Outcome.ok ∧
    lookupBackup (do_reset_totals db uid nm).2 uid (pyStrip nm)
      = some ⟨uid, pyStrip nm, (ownRows db uid).map Tx.strip, db.counter⟩ ∧
    ((ownRows db uid).map Tx.strip).length = (ownRows db uid).length ∧
    ownRows (do_reset_totals db uid nm).2 uid = [] ∧
    ∀ k, k < (resetPlan uid (pyStrip nm) ((ownRows db uid).map Tx.strip)).length →
      durableAfter db (resetPlan uid (pyStrip nm) ((ownRows db uid).map Tx.strip)) k = db := by
  refine ⟨?_, ?_, ?_, ?_, ?_⟩
  · rw [do_reset_eq]
  · rw [do_reset_eq]
    exact lookupBackup_insRep_self _ _ _ _ _ _ _
  · exact List.length_map _ _
  · rw [do_reset_eq]
    show (db.transactions.filter _).filter _ = ([] : List Tx)
    exact filter_user_del_self db.transactions uid
  · intro k hk
    have hplan : resetPlan uid (pyStrip nm) ((ownRows db uid).map Tx.strip)
        = [Stmt.insertBackup uid (pyStrip nm) ((ownRows db uid).map Tx.strip),
           Stmt.deleteTxsFor uid] ++ [Stmt.commit] := rfl
    rw [hplan] at hk ⊢
    exact durableAfter_unchanged db _ (by simp) k hk

/-- Counterexample to C2 as stated: with a name that is empty after
trimming, do_reset_totals succeeds and stores a snapshot under the empty
name, while save_backup (the capture it is claimed to be equivalent to)
fails with the validation error — so resetWithBackup does not fail exactly
when capture would. -/
theorem C2_counterexample :
    (do_reset_totals tieDb 1 "").1 = Outcome.ok ∧
    (save_backup tieDb 1 "").1 = Outcome.validationError ∧
    lookupBackup (do_reset_totals tieDb 1 "").2 1 "" ≠ none := by decide

/-- Witness for C2 at a concrete store, name and failure point. -/
theorem C2_witness :
    1 < (resetPlan 1 (pyStrip "y") ((ownRows tieDb 1).map Tx.strip)).length ∧
    durableAfter tieDb (resetPlan 1 (pyStrip "y") ((ownRows tieDb 1).map Tx.strip)) 1
      = tieDb :=
  ⟨by decide, (C2_reset_behaviour tieDb 1 "y").2.2.2.2 1 (by decide)⟩

/-- Claim C3, amended: after replaceAllFor(O, R), capture(O, x),
replaceAllFor(O, []), restore(O, x), the owner's stored ledger is
content-equal to R with R's order preserved (ids and creation timestamps
freshly assigned), and listFor is content-equal to R as a multiset; listFor
serves the rows in its documented date/time-descending order — the same
sequence it served right after replaceAllFor(O, R) — rather than in R's
own order. -/
theorem C3_round_trip (db : DB) (uid : Nat) (R : List Item) :
    let db1 := replaceAllFor db uid R
    let db2 := (save_backup db1 uid "x").2
    let db3 := replaceAllFor db2 uid []
    let db4 := (load_backup db3 uid "x").2
    (ownRows db4 uid).map Tx.strip = R ∧
    ((listFor db4 uid false).map Tx.strip).Perm R ∧
    (listFor db4 uid false).map Tx.strip = (listFor db1 uid false).map Tx.strip := by
  intro db1 db2 db3 db4
  have hx : pyStrip "x" ≠ "" := by decide
  have hpay : (ownRows db1 uid).map Tx.strip = R := by
    show (ownRows (replaceAllFor db uid R) uid).map Tx.strip = R
    rw [ownRows_replaceAllFor, mkRows_map_strip]
  have hb2 : db2.backups = insRep db1.backups uid (pyStrip "x") R db1.counter := by
    show ((save_backup db1 uid "x").2).backups = _
    rw [save_backup_eq db1 uid "x" hx, hpay]
  have hb3 : db3.backups = db2.backups := by
    show (replaceAllFor db2 uid []).backups = _
    rw [replaceAllFor_eq]
  have hlook : lookupBackup db3 uid (pyStrip "x")
      = some ⟨uid, pyStrip "x", R, db1.counter⟩ := by
    show db3.backups.find? _ = _
    rw [hb3, hb2]
    show (insRep db1.backups uid (pyStrip "x") R db1.counter).find?
      (fun b => b.user_id == uid && b.name == pyStrip "x") = _
    unfold insRep
    rw [List.find?_append, find?_filter_none]
    simp
  have hdb4 : db4 = replaceAllFor db3 uid R := by
    show (load_backup db3 uid "x").2 = _
    rw [load_backup_found db3 uid "x" _ hlook]
  have hstrip4 : (ownRows db4 uid).map Tx.strip = R := by
    rw [hdb4, ownRows_replaceAllFor, mkRows_map_strip]
  refine ⟨hstrip4, ?_, ?_⟩
  · have h2 := (sortTx_perm (ownRows db4 uid)).map Tx.strip
    rw [hstrip4] at h2
    rw [listFor_nonadmin]
    exact h2
  · rw [listFor_nonadmin, listFor_nonadmin, sortTx_map_strip, sortTx_map_strip,
        hstrip4, hpay]

/-- Counterexample to C3 as stated: for a payload whose rows are in
date-ascending order, the round trip serves them back through listFor in
date-descending order, so listFor is not order-equal to R. -/
theorem C3_counterexample :
    (listFor ((load_backup (replaceAllFor
        ((save_backup (replaceAllFor db0 1 [itA, itB]) 1 "x").2) 1 []) 1 "x").2)
      1 false).map Tx.strip = [itB, itA] ∧
    (listFor ((load_backup (replaceAllFor
        ((save_backup (replaceAllFor db0 1 [itA, itB]) 1 "x").2) 1 []) 1 "x").2)
      1 false).map Tx.strip ≠ [itA, itB] := by decide

/-- Claim C5, amended: for every owner, listFor returns a permutation of
the owner's rows sorted by date descending then time descending, and rows
that tie on both date and time appear in insertion order oldest first (the
stable order of the rowid scan) — not newest first. -/
theorem C5_listFor_order (db : DB) (uid : Nat) :
    (listFor db uid false).Perm (ownRows db uid) ∧
    (listFor db uid false).Pairwise txKeyGe ∧
    ∀ d tm : String,
      (listFor db uid false).filter (fun r => r.date == d && r.time == tm)
        = (ownRows db uid).filter (fun r => r.date == d && r.time == tm) := by
  rw [listFor_nonadmin]
  refine ⟨sortTx_perm _, sortTx_sorted _, ?_⟩
  intro d tm
  apply filter_sortTx_tie
  intro a b ha hb
  simp only [Bool.and_eq_true, beq_iff_eq] at ha hb
  unfold txKeyGe
  right
  constructor
  · rw [hb.1, ha.1]
  · rw [hb.2, ha.2]
    exact strLe_refl _

/-- Counterexample to C5 as stated: two rows of the same owner with equal
date and time come back oldest insertion first, not newest first. -/
theorem C5_counterexample :
    listFor tieDb 1 false = [tx1, tx2] ∧ listFor tieDb 1 false ≠ [tx2, tx1] := by decide

/-- Claim C6 (snapshot overwrite invariant): starting from the freshly
initialised store, every sequence of requests leaves (owner, name) a unique
key over the backups relation; and capturing twice under the same owner and
name leaves exactly one snapshot row for that key, holding the content of
the ledger at the second capture. -/
theorem C6_snapshot_unique :
    (∀ ops : List Op, uniqueKeys (runOps db0 ops)) ∧
    ∀ (db : DB) (uid : Nat) (nm : String), pyStrip nm ≠ "" →
      ((save_backup ((save_backup db uid nm).2) uid nm).2).backups.filter
          (fun b => b.user_id == uid && b.name == pyStrip nm)
        = [⟨uid, pyStrip nm, (ownRows db uid).map Tx.strip, db.counter + 1⟩] := by
  constructor
  · intro ops
    exact uniqueKeys_runOps db0 List.Pairwise.nil ops
  · intro db uid nm h
    have h1 := save_backup_eq db uid nm h
    have hdb1 : (save_backup db uid nm).2
        = ⟨db.transactions,
           insRep db.backups uid (pyStrip nm) ((ownRows db uid).map Tx.strip) db.counter,
           db.counter + 1⟩ := by rw [h1]
    have hown : ownRows ((save_backup db uid nm).2) uid = ownRows db uid := by
      rw [hdb1]
      rfl
    have h2 := save_backup_eq ((save_backup db uid nm).2) uid nm h
    rw [h2, hown, hdb1]
    exact filter_key_insRep _ uid (pyStrip nm) _ _

/-- Witness for C6's double capture at a concrete store and name. -/
theorem C6_witness :
    pyStrip "x" ≠ "" ∧
    ((save_backup ((save_backup tieDb 1 "x").2) 1 "x").2).backups.filter
        (fun b => b.user_id == 1 && b.name == pyStrip "x")
      = [⟨1, pyStrip "x", (ownRows tieDb 1).map Tx.strip, tieDb.counter + 1⟩] :=
  ⟨by decide, C6_snapshot_unique.2 tieDb 1 "x" (by decide)⟩

/-- Claim C7 (restore on a missing name): when no snapshot of the owner
carries the trimmed name, load_backup reports the not-found error and
returns the store unchanged — ledger and snapshot set untouched. -/
theorem C7_restore_missing (db : DB) (uid : Nat) (nm : String)
    (h : lookupBackup db uid (pyStrip nm) = none) :
    load_backup db uid nm = (Outcome.notFoundError, db) := by
  unfold load_backup
  rw [h]

/-- Witness for C7 at a concrete store and missing name. -/
theorem C7_witness :
    lookupBackup tieDb 1 (pyStrip "nope") = none ∧
    load_backup tieDb 1 "nope" = (Outcome.notFoundError, tieDb) :=
  ⟨by decide, C7_restore_missing tieDb 1 "nope" (by decide)⟩

/-- Claim C4, amended: save_tx succeeds exactly when the six required
fields are non-empty as submitted and both amount fields parse as decimal
numbers of any sign; on any failure nothing is inserted (missing fields
flash the validation error, unparsable numbers abort the request as an
unhandled error); on success exactly the one new row is inserted.  The
claimed non-negativity check on the amounts and the trimmed-non-emptiness
check on the client do not exist. -/
theorem C4_append_validation (db : DB) (uid : Nat) (cur : String) (f : TxForm)
    (hcur : cur = "GBP" ∨ cur = "EUR") :
    ((save_tx db uid cur f).1 = Outcome.ok ↔
      requiredOk f ∧ (pyFloat? f.amount).isSome ∧ (pyFloat? f.kz).isSome) ∧
    ((save_tx db uid cur f).1 ≠ Outcome.ok → (save_tx db uid cur f).2 = db) ∧
    (¬requiredOk f → (save_tx db uid cur f).1 = Outcome.validationError) ∧
    (requiredOk f → (pyFloat? f.amount = none ∨ pyFloat? f.kz = none) →
      (save_tx db uid cur f).1 = Outcome.crash) ∧
    (∀ a k : ℚ, requiredOk f → pyFloat? f.amount = some a → pyFloat? f.kz = some k →
      (save_tx db uid cur f).2.transactions
        = db.transactions ++
          [mkTx uid db.counter
            ⟨f.date, f.time, pyStrip f.client, pyStrip f.origin, cur, a,
             pyStrip f.recipient, pyStrip f.bank, ratTrunc k⟩]) := by
  by_cases hreq : requiredOk f
  · cases ha : pyFloat? f.amount with
    | none =>
      have hs : save_tx db uid cur f = (.crash, db) := by
        unfold save_tx
        rw [if_neg (not_not_intro hcur), if_neg (not_not_intro hreq), ha]
      rw [hs]
      refine ⟨by simp [ha], fun _ => rfl, fun hn => absurd hreq hn,
              fun _ _ => rfl, ?_⟩
      intro a k _ ha2 _
      cases ha2
    | some a =>
      cases hk : pyFloat? f.kz with
      | none =>
        have hs : save_tx db uid cur f = (.crash, db) := by
          unfold save_tx
          rw [if_neg (not_not_intro hcur), if_neg (not_not_intro hreq), ha, hk]
        rw [hs]
        refine ⟨by simp [hk], fun _ => rfl, fun hn => absurd hreq hn,
                fun _ _ => rfl, ?_⟩
        intro a2 k2 _ _ hk2
        cases hk2
      | some k =>
        have hs := save_tx_ok_eq db uid cur f a k hcur hreq ha hk
        rw [hs]
        refine ⟨by simp [ha, hk, hreq], fun hn => absurd rfl hn,
                fun hn => absurd hreq hn, ?_, ?_⟩
        · intro _ hbad
          rcases hbad with hbad | hbad
          · cases hbad
          · cases hbad
        · intro a2 k2 _ ha2 hk2
          cases ha2
          cases hk2
          rfl
  · have hs : save_tx db uid cur f = (.validationError, db) := by
      unfold save_tx
      rw [if_neg (not_not_intro hcur), if_pos hreq]
    rw [hs]
    exact ⟨by simp [hreq], fun _ => rfl, fun _ => rfl,
           fun hr _ => absurd hr hreq,
           fun a k hr _ _ => absurd hr hreq⟩

/-- Counterexample to C4 as stated: a fully filled form with the negative
amount -5 is accepted and its row inserted, and a form whose client is a
single space passes validation and stores an empty client — the claimed
non-negativity and trimmed-client conditions are not enforced. -/
theorem C4_counterexample :
    (save_tx db0 1 "GBP" negForm).1 = Outcome.ok ∧
    pyFloat? "-5" = some (-5 : ℚ) ∧ ((-5 : ℚ) < 0) ∧
    ((save_tx db0 1 "GBP" negForm).2.transactions.map Tx.amount) = [(-5 : ℚ)] ∧
    (save_tx db0 1 "GBP" wsForm).1 = Outcome.ok ∧
    ((save_tx db0 1 "GBP" wsForm).2.transactions.map Tx.client) = [""] := by decide

/-- Witness for C4 at a concrete currency, store and form. -/
theorem C4_witness :
    ("GBP" = "GBP" ∨ "GBP" = "EUR") ∧
    ((save_tx db0 1 "GBP" negForm).1 = Outcome.ok ↔
      requiredOk negForm ∧ (pyFloat? negForm.amount).isSome ∧
        (pyFloat? negForm.kz).isSome) :=
  ⟨Or.inl rfl, (C4_append_validation db0 1 "GBP" negForm (Or.inl rfl)).1⟩

/-- Claim C10 (implicit, disbursed-amount truncation): whenever the other
required fields pass validation and the kz field parses as a decimal
number, save_tx succeeds and stores the kz value truncated toward zero to
an integer — fractional disbursed amounts are accepted, not rejected. -/
theorem C10_kz_truncation (db : DB) (uid : Nat) (cur : String) (f : TxForm) (q : ℚ)
    (hcur : cur = "GBP" ∨ cur = "EUR") (hreq : requiredOk f)
    (hamt : (pyFloat? f.amount).isSome) (hk : pyFloat? f.kz = some q) :
    (save_tx db uid cur f).1 = Outcome.ok ∧
    ((save_tx db uid cur f).2.transactions.map Tx.kz)
      = (db.transactions.map Tx.kz) ++ [ratTrunc q] := by
  obtain ⟨a, ha⟩ := Option.isSome_iff_exists.mp hamt
  rw [save_tx_ok_eq db uid cur f a q hcur hreq ha hk]
  exact ⟨rfl, by simp [mkTx]⟩

/-- Witness for C10: the form whose kz field is the string 5.9 stores the
integer 5, and the parser and truncation agree with the claimed examples,
including -0.5 truncating to 0. -/
theorem C10_witness :
    requiredOk kzForm ∧ pyFloat? "5.9" = some (mkRat 59 10) ∧
    ratTrunc (mkRat 59 10) = 5 ∧ pyFloat? "-0.5" = some (mkRat (-1) 2) ∧
    ratTrunc (mkRat (-1) 2) = 0 ∧
    ((save_tx db0 1 "GBP" kzForm).2.transactions.map Tx.kz) = [(5 : ℤ)] := by
  refine ⟨by decide, by decide, by decide, by decide, by decide, ?_⟩
  have h := (C10_kz_truncation db0 1 "GBP" kzForm (mkRat 59 10) (Or.inl rfl) (by decide)
    (by decide) (by decide)).2
  rw [h]
  decide

/-- Claim C8 (owner isolation): for a non-elevated caller A and any other
owner B, none of A's store operations alters B's rows or snapshots, A's
reads (listFor, the report aggregates, snapshot lookup and restore) depend
only on A's own rows and snapshots, and a delete aimed at an id that is not
A's is silently scoped down to A's rows — B's row survives. -/
theorem C8_owner_isolation (db : DB) (A B : Nat) (h : A ≠ B) :
    OwnerIsolation db A B := by
  have hBA : B ≠ A := Ne.symm h
  refine ⟨?_, ?_, ?_, ?_, ?_, ?_, ?_, ?_⟩
  · intro cur f
    obtain ⟨hb, hcase⟩ := save_tx_snd_cases db A cur f
    refine ⟨?_, hb⟩
    unfold ownRows
    rcases hcase with hcase | ⟨it, hcase⟩
    · rw [hcase]
    · rw [hcase]
      exact filter_user_append_mk db.transactions A B db.counter h it
  · intro i
    rw [del_tx_nonadmin_eq]
    exact ⟨filter_user_of_del_owned db.transactions A B i h, rfl⟩
  · intro nm
    by_cases hnm : pyStrip nm = ""
    · have hs : save_backup db A nm = (.validationError, db) := by
        unfold save_backup
        rw [if_pos hnm]
      rw [hs]
      exact ⟨rfl, rfl⟩
    · rw [save_backup_eq db A nm hnm]
      exact ⟨rfl, ownBackups_insRep_ne db.backups A B h (pyStrip nm) _ db.counter⟩
  · intro nm
    cases hlk : lookupBackup db A (pyStrip nm) with
    | none =>
      rw [load_backup_missing db A nm hlk]
      exact ⟨rfl, rfl⟩
    | some row =>
      rw [load_backup_found db A nm row hlk, replaceAllFor_eq]
      constructor
      · show ((db.transactions.filter _) ++ _).filter _ = _
        rw [List.filter_append, filter_user_of_del_all db.transactions A B h,
            mkRows_filter_ne A B db.counter hBA, List.append_nil]
        rfl
      · rfl
  · intro nm
    rw [do_reset_eq]
    exact ⟨filter_user_of_del_all db.transactions A B h,
           ownBackups_insRep_ne db.backups A B h (pyStrip nm) _ db.counter⟩
  · intro db' hA
    have hl : listFor db' A false = listFor db A false := by
      rw [listFor_nonadmin, listFor_nonadmin, hA]
    exact ⟨hl, by unfold aggregateFor; rw [hl]⟩
  · intro db' nm hA hB2
    have hl : lookupBackup db' A (pyStrip nm) = lookupBackup db A (pyStrip nm) := by
      unfold lookupBackup
      rw [find?_key_eq_filter_user, find?_key_eq_filter_user]
      show (ownBackups db' A).find? _ = (ownBackups db A).find? _
      rw [hB2]
    refine ⟨?_, ?_, ?_⟩
    · unfold load_backup
      rw [hl]
      cases lookupBackup db A (pyStrip nm) <;> rfl
    · unfold save_backup
      by_cases hnm : pyStrip nm = "" <;> simp [hnm]
    · cases hlk : lookupBackup db A (pyStrip nm) with
      | none =>
        rw [load_backup_missing db A nm hlk, load_backup_missing db' A nm (hl.trans hlk)]
        show (ownRows db' A).map Tx.strip = (ownRows db A).map Tx.strip
        rw [hA]
      | some row =>
        rw [load_backup_found db A nm row hlk,
            load_backup_found db' A nm row (hl.trans hlk)]
        show (ownRows (replaceAllFor db' A row.payload) A).map Tx.strip
          = (ownRows (replaceAllFor db A row.payload) A).map Tx.strip
        rw [ownRows_replaceAllFor, ownRows_replaceAllFor, mkRows_map_strip,
            mkRows_map_strip]
  · intro i
    rw [del_tx_nonadmin_eq]

/-- Witness for C8 at two concrete distinct owners. -/
theorem C8_witness : OwnerIsolation tieDb 1 2 :=
  C8_owner_isolation tieDb 1 2 (by decide)

/-- Supporting fact for claim C9: in the exact-rational reading of the
amounts, the aggregate instance of the spec holds — source amounts
10.00 GBP, 5.50 GBP, 20.00 EUR and disbursed amounts 16500, 9075, 33000
total 15.50 GBP, 20.00 EUR and 58575 kz.  The Python code accumulates the
per-currency sums with binary floating-point addition, so the general
no-rounding clause of the claim is a floating-point property outside this
model; the disbursed total is integer arithmetic in both. -/
theorem aggregate_rational_instance :
    aggregateFor aggDb 1 false = (mkRat 31 2, 20, 58575) := by
  have hrows : listFor aggDb 1 false = [txEUR1, txGBP2, txGBP1] := by decide
  unfold aggregateFor
  rw [hrows]
  refine Prod.ext ?_ (Prod.ext ?_ ?_)
  · show sumCur "GBP" [txEUR1, txGBP2, txGBP1] = mkRat 31 2
    have h1 : ("EUR" : String) ≠ "GBP" := by decide
    norm_num [sumCur, txEUR1, txGBP2, txGBP1, List.filter_cons, h1]
  · show sumCur "EUR" [txEUR1, txGBP2, txGBP1] = 20
    have h2 : ("GBP" : String) ≠ "EUR" := by decide
    norm_num [sumCur, txEUR1, txGBP2, txGBP1, List.filter_cons, h2]
  · show sumKz [txEUR1, txGBP2, txGBP1] = 58575
    norm_num [sumKz, txEUR1, txGBP2, txGBP1]

end Adox
